import Mathlib

/-!
Verification of the range-aware streaming engine of TG-FileStreamBot.

The repository contains three drafts of the same Gin route `getStreamRoute`:
* `internal/routes/stream.go` — aligned-chunk variant (10 MiB chunks, ETag/304,
  `contentLengthWriter` hard cap on the response body), namespace `StreamGo`;
* an unnamed draft with a preload window (1 MiB chunks, 5 MiB preload),
  namespace `Preload`;
* an unnamed pooled-worker draft (channel-based worker pool,
  `bufferedTelegramReader`, gzip for non-media MIME types), namespace `Pooled`.

Bytes are modelled as `Nat` (values are never inspected), Go `int64` values as
`Nat` (all quantities involved are non-negative on the paths modelled; Go's
truncating division coincides with `Nat` division there).  The upstream
Telegram call `UploadGetFile` is modelled as an oracle
`fetch : Nat → Nat → Option (List Byte)` mapping (offset, limit) to the bytes
returned, `none` being a failed call.  HTTP responses are modelled as a record
of status, headers, body bytes, error text and the list of upstream fetch
calls performed while producing the response.
-/

namespace FSB

abbrev Byte := Nat

/-- File metadata as produced by `utils.FileFromMessage` (the external lookup
collaborator): id, name, size, MIME type and an opaque location handle. -/
structure FileInfo where
  id : Nat
  fileName : String
  fileSize : Nat
  mimeType : String
  location : Nat
deriving DecidableEq

/-- Modelled from the spec: `utils.PackFile` (not under `src/`) derives a
capability token from the descriptor tuple `(name, size, mimeType, id)` and a
process-wide secret via a keyed hash.  The keyed hash is modelled as the
injective record of its inputs, abstracting away hash collisions. -/
structure CapabilityToken where
  name : String
  size : Nat
  mime : String
  id : Nat
  secret : String
deriving DecidableEq

/-- Modelled from the spec: `utils.PackFile` — token derivation. -/
def packFile (secret : String) (name : String) (size : Nat) (mime : String) (id : Nat) :
    CapabilityToken :=
  ⟨name, size, mime, id, secret⟩

/-- Modelled from the spec: `utils.CheckHash` (not under `src/`) — constant-time
equality of the provided and expected tokens. -/
def checkHash (provided expected : CapabilityToken) : Bool :=
  decide (provided = expected)

/-- String rendering of a token, used where the Go code embeds the packed-file
string in a header (the pooled draft uses it as the ETag value). -/
def CapabilityToken.render (t : CapabilityToken) : String :=
  t.name ++ "|" ++ toString t.size ++ "|" ++ t.mime ++ "|" ++ toString t.id ++ "|" ++ t.secret

/-- One parsed byte range (`range_parser.Range`): inclusive start and end. -/
structure ByteRange where
  start : Nat
  endI : Nat
deriving DecidableEq

/-- State of the `Range` request header as the route observes it after
`range_parser.Parse`: absent (`""`), a parse error, or a non-empty list of
parsed ranges (the third-party parser returns at least one range on success,
modelled structurally as head plus rest). -/
inductive RangeHeader where
  | absent
  | malformed
  | parsed (r : ByteRange) (rest : List ByteRange)
deriving DecidableEq

/-- The request fields the route consults: method, `hash` query parameter
(`none` models both an absent and an empty parameter, which Gin's
`ctx.Query` conflates as `""`), `If-None-Match` header (`""` if absent), the
`Range` header and the `d` query parameter. -/
structure Request where
  method : String
  hash : Option CapabilityToken
  ifNoneMatch : String
  range : RangeHeader
  dQuery : String
  protoMajor : Nat

/-- Error taxonomy of the copy phase: the distinguished
`errContentLengthExceeded`, Go's `io.ErrShortWrite` (raised by `io.CopyBuffer`
when a write is truncated), and upstream failures. -/
inductive StreamErr where
  | contentLengthExceeded
  | shortWrite
  | upstream (s : String)
deriving DecidableEq

/-- Model of the HTTP response: status code, headers in the order set, the
body bytes that came from file content, the error text written by
`http.Error` (if any), and the upstream fetch calls (offset, limit) performed
during the request. -/
structure Response where
  status : Nat
  headers : List (String × String)
  body : List Byte
  errText : Option String
  fetches : List (Nat × Nat)

/-- Response produced by `http.Error(w, msg, status)`: error text only, no
file bytes, no upstream fetches. -/
def errorResponse (status : Nat) (msg : String) : Response :=
  ⟨status, [], [], some msg, []⟩

/-- Lower-case hexadecimal rendering of a natural number (Go's `%x` verb on
the non-negative `int64` values involved). -/
def hexString (n : Nat) : String :=
  String.mk (Nat.toDigits 16 n)

/-- ETag of `stream.go`: `fmt.Sprintf("\"%x-%x\"", file.ID, file.FileSize)`. -/
def eTagOf (id size : Nat) : String :=
  "\"" ++ hexString id ++ "-" ++ hexString size ++ "\""

/-- Value of the `Content-Range` header:
`fmt.Sprintf("bytes %d-%d/%d", start, end, size)`. -/
def contentRangeValue (start endI size : Nat) : String :=
  "bytes " ++ toString start ++ "-" ++ toString endI ++ "/" ++ toString size

/-- Outcome of the range-negotiation block of a route: an early rejection via
`http.Error`, or a served window with status and optional `Content-Range`. -/
inductive NegoResult where
  | reject (status : Nat) (msg : String)
  | ok (status : Nat) (start endI : Nat) (contentRange : Option String)
deriving DecidableEq

/-! ## contentLengthWriter (`internal/routes/stream.go`, lines 28-45) -/

/-- State of `contentLengthWriter`: the remaining permitted bytes.  In Go the
field is an `int64` that never becomes negative (each write subtracts at most
the current value), so `Nat` is faithful and Go's `remaining <= 0` test is
`remaining = 0`. -/
structure ContentLengthWriter where
  remaining : Nat
deriving DecidableEq

/-- One `contentLengthWriter.Write` call.  Returns the bytes passed to the
underlying `ResponseWriter` (modelled as accepting everything it is given),
the new writer state, and the error returned.  Mirrors: error out when no
budget remains, truncate `p` to the remaining budget, subtract the bytes
written. -/
def clWrite (w : ContentLengthWriter) (p : List Byte) :
    List Byte × ContentLengthWriter × Option StreamErr :=
  if w.remaining = 0 then ([], w, some .contentLengthExceeded)
  else
    let q := if w.remaining < p.length then p.take w.remaining else p
    (q, ⟨w.remaining - q.length⟩, none)

/-- The `io.CopyBuffer(cw, lr, buf)` loop of `getStreamRoute`, with the source
already split into the successive chunks the 32 KiB buffer would produce.
Each chunk is written through `clWrite`; the loop stops at the first write
error, or with `io.ErrShortWrite` when a write is truncated (Go's
`io.CopyBuffer` contract).  Returns all bytes delivered to the underlying
sink, the final writer state, and the terminating error (if any). -/
def copyChunks (w : ContentLengthWriter) :
    List (List Byte) → List Byte × ContentLengthWriter × Option StreamErr
  | [] => ([], w, none)
  | p :: ps =>
    let r := clWrite w p
    match r.2.2 with
    | some e => (r.1, r.2.1, some e)
    | none =>
      if r.1.length < p.length then (r.1, r.2.1, some .shortWrite)
      else
        let rest := copyChunks r.2.1 ps
        (r.1 ++ rest.1, rest.2.1, rest.2.2)

/-- The error-logging decision at the end of the copy phase
(`stream.go` lines 185-189): an error is logged unless it is the
distinguished `errContentLengthExceeded`. -/
def copyErrorLogged : Option StreamErr → Bool
  | none => false
  | some .contentLengthExceeded => false
  | some _ => true

theorem clWrite_length_le (w : ContentLengthWriter) (p : List Byte) :
    (clWrite w p).1.length ≤ w.remaining := by
  unfold clWrite
  split
  · simp
  · simp only
    split
    · simp
    · simpa using Nat.le_of_not_lt (by assumption)

theorem clWrite_remaining (w : ContentLengthWriter) (p : List Byte) :
    (clWrite w p).2.1.remaining = w.remaining - (clWrite w p).1.length := by
  unfold clWrite
  split
  · simp
  · simp

theorem copyChunks_length_le (ps : List (List Byte)) (w : ContentLengthWriter) :
    (copyChunks w ps).1.length ≤ w.remaining := by
  induction ps generalizing w with
  | nil => simp [copyChunks]
  | cons p ps ih =>
    unfold copyChunks
    have hle := clWrite_length_le w p
    have hrem := clWrite_remaining w p
    cases herr : (clWrite w p).2.2 with
    | some e => simpa [herr] using hle
    | none =>
      simp only [herr]
      split
      · simpa using hle
      · have := ih (clWrite w p).2.1
        simp only [List.length_append]
        omega

/-! ## Range negotiation of the three drafts -/

namespace StreamGo

/-- Chunk size of `internal/routes/stream.go`: 10 MiB. -/
def chunkSize : Nat := 10 * 1024 * 1024

/-- Copy-buffer size of `internal/routes/stream.go`: 32 KiB. -/
def bufferSize : Nat := 32 * 1024

/-- Range negotiation of `internal/routes/stream.go` (lines 126-154): no
header serves the whole file with 200; a parsed header serves the first
range with the start floored to a chunk boundary, the end truncated when the
span exceeds `chunkSize` and clamped to the last byte, with 206 and a
`Content-Range` built from the adjusted window. -/
def negotiate (size : Nat) (hdr : RangeHeader) : NegoResult :=
  match hdr with
  | .absent => .ok 200 0 (size - 1) none
  | .malformed => .reject 400 "range parse error"
  | .parsed r _rest =>
    let start := r.start / chunkSize * chunkSize
    let e0 := r.endI
    let e1 := if chunkSize < e0 - start then start + chunkSize - 1 else e0
    let e2 := if size ≤ e1 then size - 1 else e1
    .ok 206 start e2 (some (contentRangeValue start e2 size))

end StreamGo

namespace Preload

/-- Chunk size of the preload draft: 1 MiB. -/
def chunkSize : Nat := 1 * 1024 * 1024

/-- Preload window of the preload draft: 5 MiB. -/
def preloadSize : Nat := 5 * 1024 * 1024

/-- Range negotiation of the preload draft (lines 87-112 of the unnamed
file): no header serves the whole file with 200; a parsed header serves the
first range unchanged except that the end is truncated when the span exceeds
`preloadSize`; `Content-Range` is built from the adjusted window. -/
def negotiate (size : Nat) (hdr : RangeHeader) : NegoResult :=
  match hdr with
  | .absent => .ok 200 0 (size - 1) none
  | .malformed => .reject 400 "range parse error"
  | .parsed r _rest =>
    let start := r.start
    let e1 := if preloadSize < r.endI - start then start + preloadSize - 1 else r.endI
    .ok 206 start e1 (some (contentRangeValue start e1 size))

end Preload

namespace Pooled

/-- Default copy-buffer size of the pooled draft: 256 KiB. -/
def defaultBufferSize : Nat := 256 * 1024

/-- Copy-buffer size for `video/` responses in the pooled draft: 1 MiB. -/
def videoBufferSize : Nat := 1024 * 1024

/-- Range negotiation of the pooled draft (lines 181-206 of the unnamed
file): no header serves the whole file with 200; a header parsing to more
than one range is rejected with 416; otherwise the single range is served
with its end clamped to the last byte, with 206 and a `Content-Range` built
from the adjusted window. -/
def negotiate (size : Nat) (hdr : RangeHeader) : NegoResult :=
  match hdr with
  | .absent => .ok 200 0 (size - 1) none
  | .malformed => .reject 400 "range parse error"
  | .parsed r rest =>
    if rest ≠ [] then .reject 416 "multipart ranges not supported"
    else
      let start := r.start
      let e1 := if size ≤ r.endI then size - 1 else r.endI
      .ok 206 start e1 (some (contentRangeValue start e1 size))

end Pooled

/-! ## bufferedTelegramReader (pooled draft, lines 42-100) -/

/-- State of `bufferedTelegramReader`: the window start (`offset`), the
exclusive window end (`fileSize = offset + length`), the buffered bytes not
yet handed to the caller, the per-fetch chunk size, and the cursor
(`current`) of the next upstream offset. -/
structure BufferedTelegramReader where
  offset : Nat
  fileSize : Nat
  buffer : List Byte
  chunkSize : Nat
  current : Nat
deriving DecidableEq

/-- Constructor `newBufferedTelegramReader(ctx, worker, location, offset,
length, chunkSize)`: empty buffer, cursor at `offset`. -/
def newBufferedTelegramReader (offset length chunkSize : Nat) : BufferedTelegramReader :=
  ⟨offset, offset + length, [], chunkSize, offset⟩

/-- Outcome of one `Read` call: bytes handed to the caller, end of stream
(`io.EOF`), or a failed upstream fetch. -/
inductive ReadOut where
  | ok (bs : List Byte)
  | eof
  | fetchErr
deriving DecidableEq

/-- Semantics of `bytes.Buffer.Read` into a destination of capacity `p`:
an empty buffer yields `io.EOF` (when `p > 0`), otherwise up to `p` buffered
bytes are handed out. -/
def bufRead (buf : List Byte) (p : Nat) : ReadOut × List Byte :=
  if buf.isEmpty ∧ 0 < p then (.eof, buf)
  else (.ok (buf.take p), buf.drop p)

/-- The Go local `end` of `bufferedTelegramReader.Read`:
`end := b.current + b.chunkSize; if end > b.fileSize { end = b.fileSize }`. -/
def BufferedTelegramReader.fetchEnd (b : BufferedTelegramReader) : Nat :=
  min (b.current + b.chunkSize) b.fileSize

/-- One `bufferedTelegramReader.Read` call with a destination of capacity
`p`, against the fetch oracle.  Mirrors the source: with a non-empty buffer,
serve from the buffer; with an empty buffer and the cursor at `fileSize`,
return `io.EOF`; otherwise fetch `fetchEnd - current` bytes at offset
`current`, refill the buffer with the returned bytes, set the cursor to
`fetchEnd`, and serve from the buffer.  The third component lists the
upstream call performed, if any. -/
def BufferedTelegramReader.read (fetch : Nat → Nat → Option (List Byte))
    (b : BufferedTelegramReader) (p : Nat) :
    ReadOut × BufferedTelegramReader × List (Nat × Nat) :=
  if b.buffer.isEmpty then
    if b.fileSize ≤ b.current then (.eof, b, [])
    else
      match fetch b.current (b.fetchEnd - b.current) with
      | none => (.fetchErr, b, [(b.current, b.fetchEnd - b.current)])
      | some bs =>
        ((bufRead bs p).1, { b with buffer := (bufRead bs p).2, current := b.fetchEnd },
          [(b.current, b.fetchEnd - b.current)])
  else
    ((bufRead b.buffer p).1, { b with buffer := (bufRead b.buffer p).2 }, [])

/-- A sequence of `Read` calls with destination capacities `ps`, returning
the final reader state and all upstream calls in order. -/
def runReads (fetch : Nat → Nat → Option (List Byte)) (b : BufferedTelegramReader) :
    List Nat → BufferedTelegramReader × List (Nat × Nat)
  | [] => (b, [])
  | p :: ps =>
    let r := b.read fetch p
    let rest := runReads fetch r.2.1 ps
    (rest.1, r.2.2 ++ rest.2)

/-- All bytes a copy loop obtains from a `bufferedTelegramReader` before end
of stream or a failed fetch: the concatenation of the buffered bytes and
every refill, in order.  Returns the bytes, whether a fetch failed, and the
upstream calls performed.  A refill that returns zero bytes ends the stream
(the next `bytes.Buffer.Read` yields `io.EOF`).  The recursion is
well-founded only because the cursor strictly advances on each fetch; the
`endO ≤ b.current` guard totalises the `chunkSize = 0` case (on which the
source would loop; both call sites pass a chunk size of at least 256 KiB). -/
def drainReader (fetch : Nat → Nat → Option (List Byte)) (b : BufferedTelegramReader) :
    List Byte × Bool × List (Nat × Nat) :=
  if _h : b.buffer.isEmpty then
    if _h2 : b.fileSize ≤ b.current then ([], false, [])
    else
      if _h3 : b.fetchEnd ≤ b.current then ([], false, [])
      else
        match fetch b.current (b.fetchEnd - b.current) with
        | none => ([], true, [(b.current, b.fetchEnd - b.current)])
        | some [] => ([], false, [(b.current, b.fetchEnd - b.current)])
        | some bs =>
          let r := drainReader fetch { b with buffer := [], current := b.fetchEnd }
          (bs ++ r.1, r.2.1, (b.current, b.fetchEnd - b.current) :: r.2.2)
  else
    let r := drainReader fetch { b with buffer := [] }
    (b.buffer ++ r.1, r.2)
termination_by (b.fileSize - b.current, b.buffer.length)
decreasing_by
· apply Prod.Lex.left
  simp only [BufferedTelegramReader.fetchEnd] at _h3 ⊢
  omega
· apply Prod.Lex.right
  simpa [List.isEmpty_iff_length_eq_zero] using Nat.pos_of_ne_zero (by
    intro hlen
    exact _h (by simpa [List.isEmpty_iff_length_eq_zero] using hlen))

/-- An upstream that honours the fetch contract exactly: a call at
(offset, limit) returns precisely the `limit` bytes of `content` starting at
`offset`. -/
def exactFetch (content : List Byte) : Nat → Nat → Option (List Byte) :=
  fun off lim => some ((content.drop off).take lim)

/-- MIME fallback applied by every draft: an empty descriptor MIME type
becomes `application/octet-stream`. -/
def mimeFallback (m : String) : String :=
  if m = "" then "application/octet-stream" else m

/-- Model of Go's `strings.HasPrefix(s, pre)`, decided structurally on the
character lists (Lean's `String.startsWith` is defined by well-founded
recursion and does not evaluate inside the kernel). -/
def goHasPrefix (s pre : String) : Bool :=
  pre.data.isPrefixOf s.data

/-! ## The routes -/

namespace StreamGo

/-- The `getStreamRoute` of `internal/routes/stream.go`, after message-id
parsing and a successful `utils.FileFromMessage` lookup (both external to the
core).  `fetch` is the direct `UploadGetFile` call of the zero-size path.
`reader` stands for `utils.NewTelegramReader` (not under `src/`); modelled
from the spec (§4.3 ChunkedRemoteReader) as a capability that, for a served
window, yields the bytes it delivers and the upstream calls it performs.
The body of the streaming branch passes those bytes through the
`contentLengthWriter`-guarded copy loop. -/
def getStreamRoute (fetch : Nat → Nat → Option (List Byte))
    (reader : Nat → Nat → List Byte × List (Nat × Nat))
    (secret : String) (file : FileInfo) (req : Request) : Response :=
  match req.hash with
  | none => errorResponse 400 "missing hash param"
  | some tok =>
    let expectedHash := packFile secret file.fileName file.fileSize file.mimeType file.id
    if checkHash tok expectedHash then
      let eTag := eTagOf file.id file.fileSize
      let hdrs0 := [("ETag", eTag), ("Cache-Control", "public, max-age=86400")]
      if req.ifNoneMatch = eTag then
        { status := 304, headers := hdrs0, body := [], errText := none, fetches := [] }
      else if file.fileSize = 0 then
        match fetch 0 chunkSize with
        | none => errorResponse 500 "upstream error"
        | some fileBytes =>
          { status := 200
            headers := hdrs0 ++
              [("Content-Disposition", "inline; filename=\"" ++ file.fileName ++ "\"")] ++
              (if req.method ≠ "HEAD" then [("Content-Type", file.mimeType)] else [])
            body := if req.method ≠ "HEAD" then fileBytes else []
            errText := none
            fetches := [(0, chunkSize)] }
      else
        match negotiate file.fileSize req.range with
        | .reject st msg =>
          { status := st, headers := hdrs0 ++ [("Accept-Ranges", "bytes")],
            body := [], errText := some msg, fetches := [] }
        | .ok st s e cr =>
          let contentLength := e - s + 1
          let mt := mimeFallback file.mimeType
          let hdrs := hdrs0 ++ [("Accept-Ranges", "bytes")] ++
            (match cr with | some v => [("Content-Range", v)] | none => []) ++
            [("Content-Type", mt), ("Content-Length", toString contentLength),
             ("Content-Disposition",
               (if req.dQuery = "true" then "attachment" else "inline") ++
                 "; filename=\"" ++ file.fileName ++ "\"")]
          if req.method = "HEAD" then
            { status := st, headers := hdrs, body := [], errText := none, fetches := [] }
          else
            let rd := reader s e
            { status := st
              headers := hdrs
              body := (copyChunks ⟨contentLength⟩ [rd.1]).1
              errText := none
              fetches := rd.2 }
    else errorResponse 400 "invalid hash"

end StreamGo

namespace Preload

/-- The `getStreamRoute` of the preload draft, after message-id parsing and a
successful lookup.  `fetch` is the direct `UploadGetFile` call of
`handlePhotoMessage`; `reader` stands for `utils.NewTelegramReader` (not
under `src/`, modelled from the spec as a capability) over the served
window; `io.CopyN` caps the body at `contentLength` bytes.  Headers are
those of `setStreamingHeaders` (Gin flushes headers on the first body write,
so headers set after `WriteHeader` still take effect). -/
def getStreamRoute (fetch : Nat → Nat → Option (List Byte))
    (reader : Nat → Nat → List Byte × List (Nat × Nat))
    (secret : String) (file : FileInfo) (req : Request) : Response :=
  match req.hash with
  | none => errorResponse 400 "Missing hash parameter"
  | some tok =>
    let expectedHash := packFile secret file.fileName file.fileSize file.mimeType file.id
    if checkHash tok expectedHash then
      if file.fileSize = 0 then
        match fetch 0 (1024 * 1024) with
        | none => errorResponse 500 "upstream error"
        | some fileBytes =>
          { status := 200
            headers :=
              [("Content-Disposition", "inline; filename=\"" ++ file.fileName ++ "\""),
               ("Cache-Control", "public, max-age=86400")] ++
              (if req.method ≠ "HEAD" then [("Content-Type", file.mimeType)] else [])
            body := if req.method ≠ "HEAD" then fileBytes else []
            errText := none
            fetches := [(0, 1024 * 1024)] }
      else
        match negotiate file.fileSize req.range with
        | .reject st msg => errorResponse st msg
        | .ok st s e cr =>
          let contentLength := e - s + 1
          let mt := mimeFallback file.mimeType
          let hdrs :=
            [("X-Accel-Buffering", "yes")] ++
            (match cr with | some v => [("Content-Range", v)] | none => []) ++
            [("Accept-Ranges", "bytes"), ("Content-Length", toString contentLength),
             ("Cache-Control", "public, max-age=86400"), ("Content-Type", mt),
             ("Content-Disposition",
               (if req.dQuery = "true" then "attachment" else "inline") ++
                 "; filename=\"" ++ file.fileName ++ "\"")] ++
            (if goHasPrefix mt "video/" ∧ 2 ≤ req.protoMajor then
               [("Link", "</next-segment>; rel=preload; as=fetch")] else [])
          if req.method = "HEAD" then
            { status := st, headers := hdrs, body := [], errText := none, fetches := [] }
          else
            let rd := reader s e
            { status := st
              headers := hdrs
              body := rd.1.take contentLength
              errText := none
              fetches := rd.2 }
    else errorResponse 400 "Invalid hash"

end Preload

namespace Pooled

/-- The `getStreamRoute` of the pooled draft, after message-id parsing, pool
acquisition and a successful lookup.  `fetch` backs both the zero-size path
and the `bufferedTelegramReader`; `gzipEncode` stands for the
`compress/gzip` writer (third-party): the client receives the encoder
applied to every byte written through it.  For `video/` types the flush loop
forwards all reader bytes; otherwise `io.CopyN` caps the stream at
`contentLength` bytes and non-media types additionally pass through the gzip
writer. -/
def getStreamRoute (fetch : Nat → Nat → Option (List Byte))
    (gzipEncode : List Byte → List Byte)
    (secret : String) (file : FileInfo) (req : Request) : Response :=
  match req.hash with
  | none => errorResponse 400 "missing hash param"
  | some tok =>
    let expectedHash := packFile secret file.fileName file.fileSize file.mimeType file.id
    if checkHash tok expectedHash then
      if file.fileSize = 0 then
        match fetch 0 (1024 * 1024) with
        | none => errorResponse 500 "upstream error"
        | some fileBytes =>
          { status := 200
            headers := [("Content-Disposition", "inline; filename=\"" ++ file.fileName ++ "\"")] ++
              (if req.method ≠ "HEAD" then [("Content-Type", file.mimeType)] else [])
            body := if req.method ≠ "HEAD" then fileBytes else []
            errText := none
            fetches := [(0, 1024 * 1024)] }
      else
        match negotiate file.fileSize req.range with
        | .reject st msg => errorResponse st msg
        | .ok st s e cr =>
          let contentLength := e - s + 1
          let mt := mimeFallback file.mimeType
          let hdrs :=
            (match cr with | some v => [("Content-Range", v)] | none => []) ++
            [("Accept-Ranges", "bytes"), ("Content-Type", mt),
             ("Content-Length", toString contentLength),
             ("Cache-Control", "public, max-age=31536000, immutable"),
             ("ETag", expectedHash.render),
             ("Content-Disposition",
               (if req.dQuery = "true" then "attachment" else "inline") ++
                 "; filename=\"" ++ file.fileName ++ "\"")] ++
            (if goHasPrefix mt "video/" then
               [("X-Content-Type-Options", "nosniff")] ++
                 (if req.range = .absent then [("Content-Type", "video/mp4")] else [])
             else [])
          if req.method = "HEAD" then
            { status := st, headers := hdrs, body := [], errText := none, fetches := [] }
          else
            let bufSize := if goHasPrefix mt "video/" then videoBufferSize else defaultBufferSize
            let dr := drainReader fetch (newBufferedTelegramReader s contentLength bufSize)
            if goHasPrefix mt "video/" then
              { status := st, headers := hdrs, body := dr.1, errText := none, fetches := dr.2.2 }
            else
              let raw := dr.1.take contentLength
              let bodyBytes :=
                if !goHasPrefix mt "video/" && !goHasPrefix mt "audio/" && !goHasPrefix mt "image/"
                then gzipEncode raw else raw
              { status := st, headers := hdrs, body := bodyBytes, errText := none,
                fetches := dr.2.2 }
    else errorResponse 400 "invalid hash"

end Pooled

/-! ## The worker pool of the pooled draft

`clientPool = make(chan *bot.Worker, 10)` is a buffered channel used as a
semaphore: `LoadHome` fills it with `cap` workers, `getStreamRoute` receives
one (`worker := <-clientPool`) and a `defer` placed immediately after the
receive sends it back on every exit path.  The interleaving of concurrent
requests is modelled as a labelled transition system: a state holds the
channel buffer (FIFO list of handles) and the phase of each request —
waiting to acquire, holding a handle, or finished (handle released).  An
acquire is only enabled when the buffer is non-empty (a receive on an empty
channel blocks); a release appends the held handle to the buffer and is the
only way a request finishes (the `defer`).  Handles are modelled as `0..K-1`
(the pool is filled with `K` distinct handles, supplied by the collaborator
per spec §4.4). -/

namespace Pool

/-- Phase of one request with respect to the pool. -/
inductive ProcState where
  | waiting
  | holding (w : Nat)
  | done (w : Nat)
deriving DecidableEq

/-- Global state: the channel buffer and the per-request phases. -/
structure PoolState where
  free : List Nat
  procs : List ProcState
deriving DecidableEq

/-- Handles currently held by some request. -/
def held (procs : List ProcState) : List Nat :=
  procs.filterMap (fun p => match p with | .holding w => some w | _ => none)

/-- One interleaving step: some waiting request receives the handle at the
head of the non-empty buffer, or some holding request finishes, sending its
handle back to the buffer. -/
inductive Step : PoolState → PoolState → Prop where
  | acquire (i : Nat) (w : Nat) (rest : List Nat) (s : PoolState) :
      s.procs.get? i = some .waiting → s.free = w :: rest →
      Step s ⟨rest, s.procs.set i (.holding w)⟩
  | release (i : Nat) (w : Nat) (s : PoolState) :
      s.procs.get? i = some (.holding w) →
      Step s ⟨s.free ++ [w], s.procs.set i (.done w)⟩

/-- Reflexive-transitive closure of `Step`. -/
inductive Reachable (init : PoolState) : PoolState → Prop where
  | refl : Reachable init init
  | step {s t : PoolState} : Reachable init s → Step s t → Reachable init t

/-- Initial state: `K` distinct handles in the buffer, `n` requests about to
acquire. -/
def initState (K n : Nat) : PoolState :=
  ⟨List.range K, List.replicate n .waiting⟩

/-- Pool invariant: the buffer together with the held handles is a
permutation of the `K` handles the pool was filled with (no handle is ever
lost or duplicated), and the number of requests is constant. -/
def Inv (K n : Nat) (s : PoolState) : Prop :=
  (s.free ++ held s.procs).Perm (List.range K) ∧ s.procs.length = n

theorem held_append (l₁ l₂ : List ProcState) : held (l₁ ++ l₂) = held l₁ ++ held l₂ := by
  simp [held]

theorem get?_decomp {l : List ProcState} {i : Nat} {a : ProcState}
    (h : l.get? i = some a) :
    l = l.take i ++ a :: l.drop (i + 1) ∧ (l.take i).length = i := by
  have hi : i < l.length := by
    by_contra hle
    rw [List.get?_eq_none.2 (Nat.le_of_not_lt hle)] at h
    exact Option.noConfusion h
  have hget : l[i] = a := by
    have hq : l.get? i = some l[i] := by
      rw [List.get?_eq_getElem?, List.getElem?_eq_getElem hi]
    rw [hq] at h
    exact Option.some.inj h
  constructor
  · conv_lhs => rw [← List.take_append_drop i l]
    rw [List.drop_eq_getElem_cons hi, hget]
  · exact List.length_take_of_le (Nat.le_of_lt hi)

theorem set_decomp {l : List ProcState} {i : Nat} {a : ProcState}
    (h : l.get? i = some a) (b : ProcState) :
    l.set i b = l.take i ++ b :: l.drop (i + 1) := by
  obtain ⟨hdec, hlen⟩ := get?_decomp h
  conv_lhs => rw [hdec]
  rw [List.set_append]
  simp [hlen]

theorem inv_preserved {K n : Nat} {s t : PoolState} (hs : Inv K n s) (hst : Step s t) :
    Inv K n t := by
  obtain ⟨hperm, hlen⟩ := hs
  cases hst with
  | acquire i w rest s hi hfree =>
    obtain ⟨hdec, _⟩ := get?_decomp hi
    have hset := set_decomp hi (.holding w)
    refine ⟨?_, ?_⟩
    · show (rest ++ held (s.procs.set i (.holding w))).Perm (List.range K)
      have h1 : held (s.procs.set i (.holding w)) =
          held (s.procs.take i) ++ w :: held (s.procs.drop (i + 1)) := by
        rw [hset, held_append]
        simp [held]
      have h2 : held s.procs = held (s.procs.take i) ++ held (s.procs.drop (i + 1)) := by
        conv_lhs => rw [hdec]
        rw [held_append]
        simp [held]
      rw [h1]
      have e1 : rest ++ (held (s.procs.take i) ++ w :: held (s.procs.drop (i + 1))) =
          (rest ++ held (s.procs.take i)) ++ w :: held (s.procs.drop (i + 1)) := by
        simp [List.append_assoc]
      have key : (rest ++ (held (s.procs.take i) ++ w :: held (s.procs.drop (i + 1)))).Perm
          ((w :: rest) ++ (held (s.procs.take i) ++ held (s.procs.drop (i + 1)))) := by
        rw [e1]
        refine List.perm_middle.trans ?_
        simp [List.append_assoc]
      refine key.trans ?_
      rw [← hfree, ← h2]
      exact hperm
    · show (s.procs.set i (.holding w)).length = n
      rw [List.length_set]
      exact hlen
  | release i w s hi =>
    obtain ⟨hdec, _⟩ := get?_decomp hi
    have hset := set_decomp hi (.done w)
    refine ⟨?_, ?_⟩
    · show ((s.free ++ [w]) ++ held (s.procs.set i (.done w))).Perm (List.range K)
      have h1 : held (s.procs.set i (.done w)) =
          held (s.procs.take i) ++ held (s.procs.drop (i + 1)) := by
        rw [hset, held_append]
        simp [held]
      have h2 : held s.procs = held (s.procs.take i) ++ w :: held (s.procs.drop (i + 1)) := by
        conv_lhs => rw [hdec]
        rw [held_append]
        simp [held]
      rw [h1]
      have key : ((s.free ++ [w]) ++ (held (s.procs.take i) ++ held (s.procs.drop (i + 1)))).Perm
          (s.free ++ (held (s.procs.take i) ++ w :: held (s.procs.drop (i + 1)))) := by
        have e1 : (s.free ++ [w]) ++ (held (s.procs.take i) ++ held (s.procs.drop (i + 1))) =
            s.free ++ (w :: (held (s.procs.take i) ++ held (s.procs.drop (i + 1)))) := by
          simp [List.append_assoc]
        rw [e1]
        exact List.Perm.append_left s.free List.perm_middle.symm
      refine key.trans ?_
      rw [← h2]
      exact hperm
    · show (s.procs.set i (.done w)).length = n
      rw [List.length_set]
      exact hlen

theorem inv_init (K n : Nat) : Inv K n (initState K n) := by
  constructor
  · simp [initState, held, List.filterMap_replicate]
  · simp [initState]

theorem inv_reachable {K n : Nat} {s : PoolState}
    (h : Reachable (initState K n) s) : Inv K n s := by
  induction h with
  | refl => exact inv_init K n
  | step _ hst ih => exact inv_preserved ih hst

theorem held_nodup {K n : Nat} {s : PoolState} (h : Inv K n s) :
    (held s.procs).Nodup := by
  have := (h.1.symm.nodup_iff).1 (List.nodup_range K)
  exact this.of_append_right

theorem held_length_le {K n : Nat} {s : PoolState} (h : Inv K n s) :
    (held s.procs).length ≤ K := by
  have := h.1.length_eq
  simp only [List.length_append, List.length_range] at this
  omega

theorem held_mem_of_get? {l : List ProcState} {j : Nat} {w : Nat}
    (h : l.get? j = some (.holding w)) : w ∈ held l := by
  have hmem : ProcState.holding w ∈ l := List.get?_mem h
  simp only [held, List.mem_filterMap]
  exact ⟨.holding w, hmem, rfl⟩

theorem no_aliasing_aux {l : List ProcState} (hnd : (held l).Nodup)
    {i j wi wj : Nat} (hij : i < j)
    (hi : l.get? i = some (.holding wi)) (hj : l.get? j = some (.holding wj)) :
    wi ≠ wj := by
  obtain ⟨hdec, hlen⟩ := get?_decomp hi
  have hjd : (l.drop (i + 1)).get? (j - (i + 1)) = some (.holding wj) := by
    rw [List.get?_drop]
    rwa [Nat.add_sub_cancel' (Nat.succ_le_of_lt hij)]
  have hmem : wj ∈ held (l.drop (i + 1)) := held_mem_of_get? hjd
  have hsplit : held l = held (l.take i) ++ wi :: held (l.drop (i + 1)) := by
    conv_lhs => rw [hdec]
    rw [held_append]
    simp [held]
  rw [hsplit] at hnd
  have : wi ∉ held (l.drop (i + 1)) := by
    have h1 := hnd.of_append_right
    exact (List.nodup_cons.1 h1).1
  intro hEq
  exact this (hEq ▸ hmem)

theorem no_aliasing {K n : Nat} {s : PoolState} (h : Inv K n s)
    {i j wi wj : Nat} (hij : i ≠ j)
    (hi : s.procs.get? i = some (.holding wi)) (hj : s.procs.get? j = some (.holding wj)) :
    wi ≠ wj := by
  rcases Nat.lt_or_ge i j with hlt | hge
  · exact no_aliasing_aux (held_nodup h) hlt hi hj
  · have hlt : j < i := Nat.lt_of_le_of_ne hge (fun hEq => hij hEq.symm)
    exact (no_aliasing_aux (held_nodup h) hlt hj hi).symm

theorem held_length_of_all_holding {l : List ProcState}
    (h : ∀ p ∈ l, ∃ w, p = ProcState.holding w) : (held l).length = l.length := by
  induction l with
  | nil => simp [held]
  | cons a l ih =>
    obtain ⟨w, hw⟩ := h a (List.mem_cons_self a l)
    subst hw
    simp only [held, List.filterMap_cons]
    have := ih (fun p hp => h p (List.mem_cons_of_mem _ hp))
    simp only [held] at this
    simp [this]

/-- In a state where some request holds no handle yet and the buffer is
empty, that request cannot take a step of its own: the only enabled steps
are releases by requests currently holding a handle. -/
theorem blocked_when_empty {s t : PoolState} (hfree : s.free = []) (hst : Step s t) :
    ∃ i w, s.procs.get? i = some (.holding w) ∧ t.free = s.free ++ [w] := by
  cases hst with
  | acquire i w rest s hi hf => rw [hfree] at hf; exact List.noConfusion hf
  | release i w s hi => exact ⟨i, w, hi, rfl⟩

/-- In any reachable state of a pool of `K` handles serving `K + 1` requests
in which no request has finished, some request is still waiting to acquire. -/
theorem exists_waiting {K : Nat} {s : PoolState}
    (h : Reachable (initState K (K + 1)) s)
    (hnd : ∀ p ∈ s.procs, ∀ w, p ≠ ProcState.done w) :
    ∃ i, s.procs.get? i = some ProcState.waiting := by
  have hinv := inv_reachable h
  by_contra hno
  push_neg at hno
  have hall : ∀ p ∈ s.procs, ∃ w, p = ProcState.holding w := by
    intro p hp
    cases p with
    | waiting =>
      obtain ⟨i, hi⟩ := List.get_of_mem hp
      have : s.procs.get? i.1 = some ProcState.waiting := by
        rw [List.get?_eq_get i.2]
        simp only [Fin.eta, hi]
      exact absurd this (hno i.1)
    | holding w => exact ⟨w, rfl⟩
    | done w => exact absurd rfl (hnd _ hp w)
  have h1 := held_length_of_all_holding hall
  have h2 := held_length_le hinv
  rw [hinv.2] at h1
  omega

end Pool

/-! ## Reader lemmas -/

theorem fetchEnd_sub (b : BufferedTelegramReader) (hwf : b.current ≤ b.fileSize) :
    b.fetchEnd - b.current = min b.chunkSize (b.fileSize - b.current) := by
  simp only [BufferedTelegramReader.fetchEnd]
  omega

theorem read_step (fetch : Nat → Nat → Option (List Byte)) (b : BufferedTelegramReader)
    (p : Nat) (hchunk : 0 < b.chunkSize) (hwf : b.current ≤ b.fileSize)
    (hfetch : ∀ o l, fetch o l ≠ none) :
    ((b.read fetch p).2.1.offset = b.offset ∧
     (b.read fetch p).2.1.fileSize = b.fileSize ∧
     (b.read fetch p).2.1.chunkSize = b.chunkSize) ∧
    b.current ≤ (b.read fetch p).2.1.current ∧
    (b.read fetch p).2.1.current ≤ b.fileSize ∧
    ((b.read fetch p).2.2 = [] ∧ (b.read fetch p).2.1.current = b.current ∨
     (b.read fetch p).2.2 = [(b.current, min b.chunkSize (b.fileSize - b.current))] ∧
       b.current < b.fileSize ∧
       (b.read fetch p).2.1.current = min (b.current + b.chunkSize) b.fileSize ∧
       b.current < (b.read fetch p).2.1.current) := by
  unfold BufferedTelegramReader.read
  split
  · split
    · exact ⟨⟨rfl, rfl, rfl⟩, Nat.le_refl _, hwf, Or.inl ⟨rfl, rfl⟩⟩
    · have hlt : b.current < b.fileSize := Nat.lt_of_not_le (by assumption)
      cases hf : fetch b.current (b.fetchEnd - b.current) with
      | none => exact absurd hf (hfetch _ _)
      | some bs =>
        refine ⟨⟨rfl, rfl, rfl⟩, ?_, ?_, Or.inr ⟨?_, hlt, ?_, ?_⟩⟩
        · show b.current ≤ b.fetchEnd
          simp only [BufferedTelegramReader.fetchEnd]
          omega
        · show b.fetchEnd ≤ b.fileSize
          simp only [BufferedTelegramReader.fetchEnd]
          omega
        · show [(b.current, b.fetchEnd - b.current)] =
            [(b.current, min b.chunkSize (b.fileSize - b.current))]
          rw [fetchEnd_sub b hwf]
        · show b.fetchEnd = min (b.current + b.chunkSize) b.fileSize
          rfl
        · show b.current < b.fetchEnd
          simp only [BufferedTelegramReader.fetchEnd]
          omega
  · exact ⟨⟨rfl, rfl, rfl⟩, Nat.le_refl _, hwf, Or.inl ⟨rfl, rfl⟩⟩

theorem read_fetch_rule (fetch : Nat → Nat → Option (List Byte)) (b : BufferedTelegramReader)
    (p : Nat) (hbuf : b.buffer = []) (hlt : b.current < b.fileSize)
    (hfetch : ∀ o l, fetch o l ≠ none) :
    (b.read fetch p).2.1.current = min (b.current + b.chunkSize) b.fileSize ∧
    (b.read fetch p).2.2 = [(b.current, min b.chunkSize (b.fileSize - b.current))] := by
  unfold BufferedTelegramReader.read
  have hemp : b.buffer.isEmpty = true := by simp [hbuf]
  rw [if_pos hemp, if_neg (Nat.not_le_of_lt hlt)]
  cases hf : fetch b.current (b.fetchEnd - b.current) with
  | none => exact absurd hf (hfetch _ _)
  | some bs =>
    refine ⟨?_, ?_⟩
    · show b.fetchEnd = min (b.current + b.chunkSize) b.fileSize
      rfl
    · show [(b.current, b.fetchEnd - b.current)] =
        [(b.current, min b.chunkSize (b.fileSize - b.current))]
      rw [fetchEnd_sub b (Nat.le_of_lt hlt)]

theorem read_eof_iff (fetch : Nat → Nat → Option (List Byte)) (b : BufferedTelegramReader)
    (p : Nat) (hwf : b.current ≤ b.fileSize) :
    (b.read fetch p).1 = .eof ↔
      (b.buffer = [] ∧ (b.fileSize ≤ b.current ∨
        (b.current < b.fileSize ∧
         fetch b.current (min b.chunkSize (b.fileSize - b.current)) = some [] ∧ 0 < p))) := by
  unfold BufferedTelegramReader.read
  by_cases hbuf : b.buffer = []
  · have hemp : b.buffer.isEmpty = true := by simp [hbuf]
    rw [if_pos hemp]
    by_cases hcur : b.fileSize ≤ b.current
    · rw [if_pos hcur]
      simp [hbuf, hcur]
    · rw [if_neg hcur]
      have hlt : b.current < b.fileSize := Nat.lt_of_not_le hcur
      rw [fetchEnd_sub b hwf]
      cases hf : fetch b.current (min b.chunkSize (b.fileSize - b.current)) with
      | none => simp [hbuf, hcur, hf]
      | some bs =>
        simp only
        unfold bufRead
        by_cases hbs : bs.isEmpty = true ∧ 0 < p
        · rw [if_pos hbs]
          have : bs = [] := by simpa [List.isEmpty_iff] using hbs.1
          simp [hbuf, hcur, hf, this, hbs.2, hlt]
        · rw [if_neg hbs]
          simp only [hbuf, true_and, hf]
          constructor
          · intro h
            exact absurd h (by simp)
          · intro h
            rcases h with h | ⟨_, hfe, hp⟩
            · exact absurd h hcur
            · have : bs = [] := Option.some.inj hfe
              exact absurd ⟨by simp [this], hp⟩ hbs
  · have hemp : ¬ b.buffer.isEmpty = true := by simpa [List.isEmpty_iff] using hbuf
    rw [if_neg hemp]
    simp only [hbuf, false_and, iff_false]
    unfold bufRead
    split
    · exact absurd (by
        simpa [List.isEmpty_iff] using
          (by assumption : b.buffer.isEmpty = true ∧ 0 < p).1) hbuf
    · simp

theorem runReads_spec (fetch : Nat → Nat → Option (List Byte))
    (hfetch : ∀ o l, fetch o l ≠ none) (ps : List Nat) :
    ∀ (b : BufferedTelegramReader), 0 < b.chunkSize → b.current ≤ b.fileSize →
    (∀ c ∈ (runReads fetch b ps).2,
       b.current ≤ c.1 ∧ c.2 = min b.chunkSize (b.fileSize - c.1) ∧
       c.1 + c.2 ≤ b.fileSize ∧ c.1 < b.fileSize) ∧
    List.Chain' (fun x y : Nat × Nat => x.1 < y.1) (runReads fetch b ps).2 ∧
    b.current ≤ (runReads fetch b ps).1.current := by
  induction ps with
  | nil =>
    intro b _ _
    simp [runReads]
  | cons p ps ih =>
    intro b hchunk hwf
    have hstep := read_step fetch b p hchunk hwf hfetch
    obtain ⟨⟨_, hfs, hcs⟩, hmono, hwf', hcase⟩ := hstep
    have ihb := ih (b.read fetch p).2.1 (by rw [hcs]; exact hchunk)
      (by rw [hfs]; exact hwf')
    obtain ⟨ihmem, ihchain, ihmono⟩ := ihb
    have hsplit : (runReads fetch b (p :: ps)).2 =
        (b.read fetch p).2.2 ++ (runReads fetch (b.read fetch p).2.1 ps).2 := rfl
    have hfinal : (runReads fetch b (p :: ps)).1 =
        (runReads fetch (b.read fetch p).2.1 ps).1 := rfl
    refine ⟨?_, ?_, ?_⟩
    · intro c hc
      rw [hsplit, List.mem_append] at hc
      rcases hc with hc | hc
      · rcases hcase with ⟨hnil, _⟩ | ⟨hone, hlt, _, _⟩
        · rw [hnil] at hc
          exact absurd hc (List.not_mem_nil c)
        · rw [hone] at hc
          have : c = (b.current, min b.chunkSize (b.fileSize - b.current)) := by
            simpa using hc
          subst this
          refine ⟨Nat.le_refl _, rfl, by omega, hlt⟩
      · have := ihmem c hc
        rw [hfs, hcs] at this
        exact ⟨Nat.le_trans hmono this.1, this.2.1, this.2.2.1, this.2.2.2⟩
    · rw [hsplit]
      rcases hcase with ⟨hnil, _⟩ | ⟨hone, hlt, _, hstrict⟩
      · rw [hnil]
        simpa using ihchain
      · rw [hone]
        rw [List.singleton_append, List.chain'_cons']
        refine ⟨?_, ihchain⟩
        intro y hy
        have hymem : y ∈ (runReads fetch (b.read fetch p).2.1 ps).2 :=
          List.mem_of_mem_head? hy
        have := (ihmem y hymem).1
        exact Nat.lt_of_lt_of_le hstrict this
    · rw [hfinal]
      exact Nat.le_trans hmono ihmono

/-! ## Drain of the reader against an exact upstream -/

theorem drainReader_exact (content : List Byte) (chunk off0 : Nat) (hchunk : 0 < chunk) :
    ∀ n fl c, fl - c = n → c ≤ fl → fl ≤ content.length →
    (drainReader (exactFetch content) ⟨off0, fl, [], chunk, c⟩).1 =
      (content.drop c).take (fl - c) := by
  intro n
  induction n using Nat.strong_induction_on with
  | _ n ih =>
    intro fl c hn hc hfl
    by_cases hend : fl ≤ c
    · have hcc : fl = c := Nat.le_antisymm hend hc
      unfold drainReader
      simp [hcc]
    · have hlt : c < fl := Nat.lt_of_not_le hend
      have hpos : 0 < min (c + chunk) fl - c := by omega
      have hbs : (content.drop c).take (min (c + chunk) fl - c) ≠ [] := by
        have hlen : 0 < (content.drop c).length := by
          rw [List.length_drop]
          omega
        intro hempty
        have := congrArg List.length hempty
        rw [List.length_take] at this
        simp only [List.length_nil] at this
        omega
      have hnotle :
          ¬ ((⟨off0, fl, [], chunk, c⟩ : BufferedTelegramReader).fetchEnd ≤
            (⟨off0, fl, [], chunk, c⟩ : BufferedTelegramReader).current) := by
        show ¬ (min (c + chunk) fl ≤ c)
        omega
      unfold drainReader
      rw [dif_pos (by simp), dif_neg (by show ¬ (fl ≤ c); omega), dif_neg hnotle]
      have hscrut : exactFetch content
          (⟨off0, fl, [], chunk, c⟩ : BufferedTelegramReader).current
          ((⟨off0, fl, [], chunk, c⟩ : BufferedTelegramReader).fetchEnd -
            (⟨off0, fl, [], chunk, c⟩ : BufferedTelegramReader).current) =
          some ((content.drop c).take (min (c + chunk) fl - c)) := rfl
      rw [hscrut]
      cases hcase : (content.drop c).take (min (c + chunk) fl - c) with
      | nil => exact absurd hcase hbs
      | cons x xs =>
        have hrec := ih (fl - min (c + chunk) fl) (by omega) fl (min (c + chunk) fl)
          rfl (by omega) hfl
        have hdd : content.drop (min (c + chunk) fl) =
            (content.drop c).drop (min (c + chunk) fl - c) := by
          rw [List.drop_drop]
          congr 1
          omega
        have key : (content.drop c).take (min (c + chunk) fl - c) ++
            (content.drop (min (c + chunk) fl)).take (fl - min (c + chunk) fl) =
            (content.drop c).take (fl - c) := by
          rw [hdd, ← List.take_add]
          congr 1
          omega
        have final : x :: xs ++
            (drainReader (exactFetch content)
              (⟨off0, fl, [], chunk, min (c + chunk) fl⟩ : BufferedTelegramReader)).1 =
            (content.drop c).take (fl - c) := by
          rw [← hcase, hrec]
          exact key
        exact final

/-! ## Claim theorems -/

/-- C1, counterexample: the claim bounds the served window length by
`chunkSize` (or `preloadSize`), but the truncation guard in the source is
`end-start > chunkSize` (strict), so a requested span of exactly one fetch
unit is not truncated and the served window has length `chunkSize + 1`.
With `size = 10485762`, a valid request `bytes=0-10485760` (`0 ≤ S ≤ E <
size`) is served in full: length `10485761 > chunkSize` (and also
`> preloadSize`). -/
theorem c1_window_bounds_counterexample :
    (0 : Nat) ≤ 10485760 ∧ (10485760 : Nat) < 10485762 ∧
    StreamGo.negotiate 10485762 (.parsed ⟨0, 10485760⟩ []) =
      .ok 206 0 10485760 (some (contentRangeValue 0 10485760 10485762)) ∧
    ¬ (10485760 - 0 + 1 ≤ StreamGo.chunkSize) ∧
    ¬ (10485760 - 0 + 1 ≤ Preload.preloadSize) := by
  refine ⟨by decide, by decide, by decide, by decide, by decide⟩

/-- C1 (amended): for every size and every valid requested range
`0 ≤ S ≤ E < size`, the aligned draft serves a window with `s ≤ S`,
`e ≤ E` and length at most `chunkSize + 1` (one more than the claim's
bound, forced by the strict `>` truncation guard), and the preload draft
serves `s = S`, `e ≤ E` with length at most `preloadSize + 1`; in both,
`Content-Range` is built from exactly the served window. -/
theorem c1_window_bounds_amended :
    (∀ (size S E : Nat) (rest : List ByteRange), S ≤ E → E < size →
      ∃ s e, StreamGo.negotiate size (.parsed ⟨S, E⟩ rest) =
          .ok 206 s e (some (contentRangeValue s e size)) ∧
        s ≤ S ∧ e ≤ E ∧ e - s + 1 ≤ StreamGo.chunkSize + 1) ∧
    (∀ (size S E : Nat) (rest : List ByteRange), S ≤ E → E < size →
      ∃ s e, Preload.negotiate size (.parsed ⟨S, E⟩ rest) =
          .ok 206 s e (some (contentRangeValue s e size)) ∧
        s = S ∧ e ≤ E ∧ e - s + 1 ≤ Preload.preloadSize + 1) := by
  constructor
  · intro size S E rest hSE hEsize
    have hdm : S / StreamGo.chunkSize * StreamGo.chunkSize ≤ S :=
      Nat.div_mul_le_self S StreamGo.chunkSize
    have hc : 0 < StreamGo.chunkSize := by decide
    refine ⟨_, _, rfl, hdm, ?_, ?_⟩
    · simp only [StreamGo.negotiate]
      split_ifs <;> omega
    · simp only [StreamGo.negotiate]
      split_ifs <;> omega
  · intro size S E rest hSE hEsize
    have hp : 0 < Preload.preloadSize := by decide
    refine ⟨_, _, rfl, rfl, ?_, ?_⟩
    · simp only [Preload.negotiate]
      split_ifs <;> omega
    · simp only [Preload.negotiate]
      split_ifs <;> omega

theorem c1_window_bounds_amended_witness :
    (∃ s e, StreamGo.negotiate 100 (.parsed ⟨3, 5⟩ []) =
        .ok 206 s e (some (contentRangeValue s e 100)) ∧
      s ≤ 3 ∧ e ≤ 5 ∧ e - s + 1 ≤ StreamGo.chunkSize + 1) ∧
    (∃ s e, Preload.negotiate 100 (.parsed ⟨3, 5⟩ []) =
        .ok 206 s e (some (contentRangeValue s e 100)) ∧
      s = 3 ∧ e ≤ 5 ∧ e - s + 1 ≤ Preload.preloadSize + 1) :=
  ⟨c1_window_bounds_amended.1 100 3 5 [] (by decide) (by decide),
   c1_window_bounds_amended.2 100 3 5 [] (by decide) (by decide)⟩

/-- C2: the `contentLengthWriter`-guarded copy never delivers more than the
declared content length to the underlying sink, no matter what chunk
sequence the reader produces; a write arriving with an exhausted budget
writes nothing and returns the distinguished `errContentLengthExceeded`; a
write exceeding the remaining budget is truncated to exactly the remaining
bytes; and the copy loop's logging treats `errContentLengthExceeded` (and a
clean finish) as a non-error. -/
theorem c2_content_length_cap :
    (∀ (L : Nat) (chunks : List (List Byte)),
       (copyChunks ⟨L⟩ chunks).1.length ≤ L) ∧
    (∀ (w : ContentLengthWriter) (p : List Byte), w.remaining = 0 →
       clWrite w p = ([], w, some .contentLengthExceeded)) ∧
    (∀ (w : ContentLengthWriter) (p : List Byte),
       0 < w.remaining → w.remaining < p.length →
       (clWrite w p).1 = p.take w.remaining ∧
       (clWrite w p).1.length = w.remaining) ∧
    copyErrorLogged (some .contentLengthExceeded) = false ∧
    copyErrorLogged none = false := by
  refine ⟨fun L chunks => copyChunks_length_le chunks ⟨L⟩, ?_, ?_, rfl, rfl⟩
  · intro w p h
    unfold clWrite
    rw [if_pos h]
  · intro w p h0 hlen
    unfold clWrite
    rw [if_neg (by omega)]
    simp only [if_pos hlen]
    constructor
    · trivial
    · rw [List.length_take]
      omega

theorem c2_content_length_cap_witness :
    (copyChunks ⟨5⟩ [[1, 2, 3], [4, 5, 6], [7, 8]]).1.length ≤ 5 ∧
    clWrite ⟨0⟩ [9, 9] = ([], ⟨0⟩, some .contentLengthExceeded) ∧
    (clWrite ⟨2⟩ [7, 7, 7]).1 = [7, 7] ∧
    copyErrorLogged (some .contentLengthExceeded) = false :=
  ⟨c2_content_length_cap.1 5 [[1, 2, 3], [4, 5, 6], [7, 8]],
   c2_content_length_cap.2.1 ⟨0⟩ [9, 9] rfl,
   by
     have h := (c2_content_length_cap.2.2.1 ⟨2⟩ [7, 7, 7] (by decide) (by decide)).1
     rw [h]
     rfl,
   c2_content_length_cap.2.2.2.1⟩

/-- C4: for the file `{id 42, size 1000000, mime video/mp4, name a.mp4}` in
the draft whose chunk size constant is 1048576 (the preload draft), the
request `Range: bytes=500000-999999` negotiates the served window
`[500000, 999999]`, responds 206 with
`Content-Range: bytes 500000-999999/1000000` and `Content-Length: 500000`. -/
theorem c4_preload_example :
    Preload.chunkSize = 1048576 ∧
    Preload.negotiate 1000000 (.parsed ⟨500000, 999999⟩ []) =
      .ok 206 500000 999999 (some "bytes 500000-999999/1000000") ∧
    (Preload.getStreamRoute (fun _ _ => none) (fun _ _ => ([], []))
        "secret" ⟨42, "a.mp4", 1000000, "video/mp4", 0⟩
        ⟨"GET", some (packFile "secret" "a.mp4" 1000000 "video/mp4" 42), "",
          .parsed ⟨500000, 999999⟩ [], "", 1⟩).status = 206 ∧
    ("Content-Range", "bytes 500000-999999/1000000") ∈
      (Preload.getStreamRoute (fun _ _ => none) (fun _ _ => ([], []))
        "secret" ⟨42, "a.mp4", 1000000, "video/mp4", 0⟩
        ⟨"GET", some (packFile "secret" "a.mp4" 1000000 "video/mp4" 42), "",
          .parsed ⟨500000, 999999⟩ [], "", 1⟩).headers ∧
    ("Content-Length", "500000") ∈
      (Preload.getStreamRoute (fun _ _ => none) (fun _ _ => ([], []))
        "secret" ⟨42, "a.mp4", 1000000, "video/mp4", 0⟩
        ⟨"GET", some (packFile "secret" "a.mp4" 1000000 "video/mp4" 42), "",
          .parsed ⟨500000, 999999⟩ [], "", 1⟩).headers := by
  refine ⟨by decide, by decide, by decide, by decide, by decide⟩

/-- C7, counterexample: the claim says a multi-range header is rejected and
no partial content is served; in the aligned draft (`stream.go`) the parse
result of a two-range header is not rejected — the first range is served
with status 206 and a non-empty body. -/
theorem c7_multipart_counterexample :
    (StreamGo.getStreamRoute (fun _ _ => none)
        (fun _ _ => (List.replicate 10 7, [(0, 10)])) "sec"
        ⟨1, "f.bin", 1000, "application/pdf", 0⟩
        ⟨"GET", some (packFile "sec" "f.bin" 1000 "application/pdf" 1), "",
          .parsed ⟨0, 9⟩ [⟨20, 29⟩], "", 1⟩).status = 206 ∧
    (StreamGo.getStreamRoute (fun _ _ => none)
        (fun _ _ => (List.replicate 10 7, [(0, 10)])) "sec"
        ⟨1, "f.bin", 1000, "application/pdf", 0⟩
        ⟨"GET", some (packFile "sec" "f.bin" 1000 "application/pdf" 1), "",
          .parsed ⟨0, 9⟩ [⟨20, 29⟩], "", 1⟩).body = List.replicate 10 7 ∧
    (StreamGo.getStreamRoute (fun _ _ => none)
        (fun _ _ => (List.replicate 10 7, [(0, 10)])) "sec"
        ⟨1, "f.bin", 1000, "application/pdf", 0⟩
        ⟨"GET", some (packFile "sec" "f.bin" 1000 "application/pdf" 1), "",
          .parsed ⟨0, 9⟩ [⟨20, 29⟩], "", 1⟩).errText = none := by
  refine ⟨by decide, by decide, by decide⟩

/-- C7 (amended): only the pooled draft rejects a header that parses to more
than one range, with 416 and nothing served; the aligned and preload drafts
do not reject it but use only the first parsed range (so exactly one range
is ever served in every draft). -/
theorem c7_multipart_amended :
    (∀ (size : Nat) (r r2 : ByteRange) (rest : List ByteRange),
       Pooled.negotiate size (.parsed r (r2 :: rest)) =
         .reject 416 "multipart ranges not supported") ∧
    (∀ (fetch : Nat → Nat → Option (List Byte)) (gz : List Byte → List Byte)
       (secret : String) (file : FileInfo) (req : Request) (tok : CapabilityToken)
       (r r2 : ByteRange) (rest : List ByteRange),
       req.hash = some tok →
       checkHash tok (packFile secret file.fileName file.fileSize file.mimeType file.id) = true →
       file.fileSize ≠ 0 →
       req.range = .parsed r (r2 :: rest) →
       Pooled.getStreamRoute fetch gz secret file req =
         errorResponse 416 "multipart ranges not supported") ∧
    (∀ (size : Nat) (r : ByteRange) (rest : List ByteRange),
       StreamGo.negotiate size (.parsed r rest) = StreamGo.negotiate size (.parsed r [])) ∧
    (∀ (size : Nat) (r : ByteRange) (rest : List ByteRange),
       Preload.negotiate size (.parsed r rest) = Preload.negotiate size (.parsed r [])) := by
  refine ⟨?_, ?_, fun _ _ _ => rfl, fun _ _ _ => rfl⟩
  · intro size r r2 rest
    simp [Pooled.negotiate]
  · intro fetch gz secret file req tok r r2 rest hhash hchk hsz hrange
    simp [Pooled.getStreamRoute, hhash, hchk, hsz, hrange, Pooled.negotiate]

theorem c7_multipart_amended_witness :
    Pooled.negotiate 1000 (.parsed ⟨0, 9⟩ [⟨20, 29⟩]) =
      .reject 416 "multipart ranges not supported" ∧
    Pooled.getStreamRoute (fun _ _ => none) (fun l => l) "sec"
        ⟨1, "f.bin", 1000, "application/pdf", 0⟩
        ⟨"GET", some (packFile "sec" "f.bin" 1000 "application/pdf" 1), "",
          .parsed ⟨0, 9⟩ [⟨20, 29⟩], "", 1⟩ =
      errorResponse 416 "multipart ranges not supported" :=
  ⟨c7_multipart_amended.1 1000 ⟨0, 9⟩ ⟨20, 29⟩ [],
   c7_multipart_amended.2.1 (fun _ _ => none) (fun l => l) "sec"
     ⟨1, "f.bin", 1000, "application/pdf", 0⟩
     ⟨"GET", some (packFile "sec" "f.bin" 1000 "application/pdf" 1), "",
       .parsed ⟨0, 9⟩ [⟨20, 29⟩], "", 1⟩
     (packFile "sec" "f.bin" 1000 "application/pdf" 1) ⟨0, 9⟩ ⟨20, 29⟩ []
     rfl (by decide) (by decide) rfl⟩

/-- C3, counterexample: the claim says the cursor advances by the bytes
actually returned; in the source the cursor is set to the end of the
requested chunk (`b.current = end`) regardless of the fetch result.  With a
window of 10 bytes, chunk size 4 and an upstream returning only 2 bytes, one
read issues the fetch `(offset 0, limit 4)`, hands back the 2 bytes, and
leaves the cursor at 4 — not at `0 + 2` as the claim predicts. -/
theorem c3_reader_counterexample :
    ((newBufferedTelegramReader 0 10 4).read (fun _ _ => some [7, 7]) 4).2.2 = [(0, 4)] ∧
    ((newBufferedTelegramReader 0 10 4).read (fun _ _ => some [7, 7]) 4).1 = .ok [7, 7] ∧
    ((newBufferedTelegramReader 0 10 4).read (fun _ _ => some [7, 7]) 4).2.1.current = 4 ∧
    (newBufferedTelegramReader 0 10 4).current + 2 ≠ 4 := by
  refine ⟨by decide, by decide, by decide, by decide⟩

/-- C3 (amended): over any sequence of reads of a
`bufferedTelegramReader` on window `[start, start+len-1]` with positive
chunk size and an upstream whose calls all succeed: every fetch is issued at
the current cursor for `min(chunkSize, windowEnd+1-cursor)` bytes and stays
inside the window; fetch offsets are strictly increasing; a fetching read
advances the cursor to `min(cursor+chunkSize, windowEnd+1)` — the requested
end, regardless of how many bytes were returned; and EOF is signalled
exactly when the buffer is drained and either the cursor has reached
`windowEnd+1` or the refill returned zero bytes. -/
theorem c3_reader_amended :
    ∀ (start len chunk : Nat) (fetch : Nat → Nat → Option (List Byte)) (ps : List Nat),
      0 < chunk → (∀ o l, fetch o l ≠ none) →
      ((∀ c ∈ (runReads fetch (newBufferedTelegramReader start len chunk) ps).2,
          c.2 = min chunk (start + len - c.1) ∧ start ≤ c.1 ∧ c.1 + c.2 ≤ start + len) ∧
       List.Chain' (fun x y : Nat × Nat => x.1 < y.1)
         (runReads fetch (newBufferedTelegramReader start len chunk) ps).2) ∧
      (∀ (b : BufferedTelegramReader) (p : Nat), b.buffer = [] → b.current < b.fileSize →
        (b.read fetch p).2.1.current = min (b.current + b.chunkSize) b.fileSize ∧
        (b.read fetch p).2.2 = [(b.current, min b.chunkSize (b.fileSize - b.current))]) ∧
      (∀ (b : BufferedTelegramReader) (p : Nat), b.current ≤ b.fileSize →
        ((b.read fetch p).1 = .eof ↔ (b.buffer = [] ∧ (b.fileSize ≤ b.current ∨
           (b.current < b.fileSize ∧
            fetch b.current (min b.chunkSize (b.fileSize - b.current)) = some [] ∧
            0 < p))))) := by
  intro start len chunk fetch ps hchunk hfetch
  have hspec := runReads_spec fetch hfetch ps (newBufferedTelegramReader start len chunk)
    hchunk (by show start ≤ start + len; omega)
  refine ⟨⟨?_, hspec.2.1⟩, ?_, ?_⟩
  · intro c hc
    have h := hspec.1 c hc
    exact ⟨h.2.1, h.1, h.2.2.1⟩
  · intro b p hbuf hlt
    exact read_fetch_rule fetch b p hbuf hlt hfetch
  · intro b p hwf
    exact read_eof_iff fetch b p hwf

theorem c3_reader_amended_witness :
    (0 : Nat) < 3 ∧
    (((∀ c ∈ (runReads (exactFetch (List.range 20))
          (newBufferedTelegramReader 2 5 3) [2, 2, 2, 2]).2,
        c.2 = min 3 (2 + 5 - c.1) ∧ 2 ≤ c.1 ∧ c.1 + c.2 ≤ 2 + 5) ∧
      List.Chain' (fun x y : Nat × Nat => x.1 < y.1)
        (runReads (exactFetch (List.range 20))
          (newBufferedTelegramReader 2 5 3) [2, 2, 2, 2]).2) ∧
     (∀ (b : BufferedTelegramReader) (p : Nat), b.buffer = [] → b.current < b.fileSize →
       (b.read (exactFetch (List.range 20)) p).2.1.current =
         min (b.current + b.chunkSize) b.fileSize ∧
       (b.read (exactFetch (List.range 20)) p).2.2 =
         [(b.current, min b.chunkSize (b.fileSize - b.current))]) ∧
     (∀ (b : BufferedTelegramReader) (p : Nat), b.current ≤ b.fileSize →
       ((b.read (exactFetch (List.range 20)) p).1 = .eof ↔
         (b.buffer = [] ∧ (b.fileSize ≤ b.current ∨
           (b.current < b.fileSize ∧
            exactFetch (List.range 20) b.current (min b.chunkSize (b.fileSize - b.current)) =
              some [] ∧ 0 < p)))))) :=
  ⟨by decide,
   c3_reader_amended 2 5 3 (exactFetch (List.range 20)) [2, 2, 2, 2] (by decide)
     (fun o l => by simp [exactFetch])⟩

/-- C5: the ETag of the aligned draft is a function of `(id, size)` only,
and a request passing authentication whose `If-None-Match` equals the
descriptor's ETag receives exactly a 304 response with the ETag and
Cache-Control headers, an empty body, and no upstream fetch performed. -/
theorem c5_etag_not_modified :
    (∀ id1 size1 id2 size2 : Nat, id1 = id2 → size1 = size2 →
       eTagOf id1 size1 = eTagOf id2 size2) ∧
    (∀ (fetch : Nat → Nat → Option (List Byte))
       (reader : Nat → Nat → List Byte × List (Nat × Nat))
       (secret : String) (file : FileInfo) (req : Request) (tok : CapabilityToken),
       req.hash = some tok →
       checkHash tok (packFile secret file.fileName file.fileSize file.mimeType file.id) = true →
       req.ifNoneMatch = eTagOf file.id file.fileSize →
       StreamGo.getStreamRoute fetch reader secret file req =
         ⟨304, [("ETag", eTagOf file.id file.fileSize),
                ("Cache-Control", "public, max-age=86400")], [], none, []⟩) := by
  constructor
  · intro id1 size1 id2 size2 h1 h2
    rw [h1, h2]
  · intro fetch reader secret file req tok hhash hchk hinm
    simp [StreamGo.getStreamRoute, hhash, hchk, hinm]

theorem c5_etag_not_modified_witness :
    StreamGo.getStreamRoute (fun _ _ => none) (fun _ _ => ([], [])) "s"
        ⟨1, "a", 2, "m", 0⟩
        ⟨"GET", some (packFile "s" "a" 2 "m" 1), eTagOf 1 2, .absent, "", 1⟩ =
      ⟨304, [("ETag", eTagOf 1 2), ("Cache-Control", "public, max-age=86400")],
       [], none, []⟩ :=
  c5_etag_not_modified.2 (fun _ _ => none) (fun _ _ => ([], [])) "s"
    ⟨1, "a", 2, "m", 0⟩
    ⟨"GET", some (packFile "s" "a" 2 "m" 1), eTagOf 1 2, .absent, "", 1⟩
    (packFile "s" "a" 2 "m" 1) rfl (by decide) rfl

/-- C6: a request with an absent or empty `hash` query parameter, or whose
token does not match the one derived from the descriptor's
`(name, size, mimeType, id)` tuple — in particular any token minted for a
tuple differing in at least one field — is rejected with status 400 in both
full drafts, and such a rejection carries no file bytes and performs no
upstream fetch. -/
theorem c6_auth_rejection :
    (∀ (fetch : Nat → Nat → Option (List Byte))
       (reader : Nat → Nat → List Byte × List (Nat × Nat))
       (secret : String) (file : FileInfo) (req : Request), req.hash = none →
       StreamGo.getStreamRoute fetch reader secret file req =
         errorResponse 400 "missing hash param") ∧
    (∀ (fetch : Nat → Nat → Option (List Byte))
       (reader : Nat → Nat → List Byte × List (Nat × Nat))
       (secret : String) (file : FileInfo) (req : Request) (tok : CapabilityToken),
       req.hash = some tok →
       tok ≠ packFile secret file.fileName file.fileSize file.mimeType file.id →
       StreamGo.getStreamRoute fetch reader secret file req =
         errorResponse 400 "invalid hash") ∧
    (∀ (fetch : Nat → Nat → Option (List Byte)) (gz : List Byte → List Byte)
       (secret : String) (file : FileInfo) (req : Request), req.hash = none →
       Pooled.getStreamRoute fetch gz secret file req =
         errorResponse 400 "missing hash param") ∧
    (∀ (fetch : Nat → Nat → Option (List Byte)) (gz : List Byte → List Byte)
       (secret : String) (file : FileInfo) (req : Request) (tok : CapabilityToken),
       req.hash = some tok →
       tok ≠ packFile secret file.fileName file.fileSize file.mimeType file.id →
       Pooled.getStreamRoute fetch gz secret file req =
         errorResponse 400 "invalid hash") ∧
    (∀ (secret n m : String) (sz i : Nat) (file : FileInfo),
       ¬ (n = file.fileName ∧ sz = file.fileSize ∧ m = file.mimeType ∧ i = file.id) →
       packFile secret n sz m i ≠
         packFile secret file.fileName file.fileSize file.mimeType file.id) ∧
    (∀ (st : Nat) (msg : String),
       (errorResponse st msg).body = [] ∧ (errorResponse st msg).fetches = []) := by
  refine ⟨?_, ?_, ?_, ?_, ?_, fun st msg => ⟨rfl, rfl⟩⟩
  · intro fetch reader secret file req h
    simp [StreamGo.getStreamRoute, h]
  · intro fetch reader secret file req tok hhash hne
    simp [StreamGo.getStreamRoute, hhash, checkHash, hne]
  · intro fetch gz secret file req h
    simp [Pooled.getStreamRoute, h]
  · intro fetch gz secret file req tok hhash hne
    simp [Pooled.getStreamRoute, hhash, checkHash, hne]
  · intro secret n m sz i file hne heq
    apply hne
    simp only [packFile, CapabilityToken.mk.injEq] at heq
    exact ⟨heq.1, heq.2.1, heq.2.2.1, heq.2.2.2.1⟩

theorem c6_auth_rejection_witness :
    StreamGo.getStreamRoute (fun _ _ => none) (fun _ _ => ([], [])) "sec"
        ⟨7, "doc.pdf", 100, "application/pdf", 0⟩
        ⟨"GET", none, "", .absent, "", 1⟩ =
      errorResponse 400 "missing hash param" ∧
    StreamGo.getStreamRoute (fun _ _ => none) (fun _ _ => ([], [])) "sec"
        ⟨7, "doc.pdf", 100, "application/pdf", 0⟩
        ⟨"GET", some (packFile "sec" "doc.pdf" 101 "application/pdf" 7), "",
          .absent, "", 1⟩ =
      errorResponse 400 "invalid hash" ∧
    packFile "sec" "doc.pdf" 101 "application/pdf" 7 ≠
      packFile "sec" "doc.pdf" 100 "application/pdf" 7 :=
  ⟨c6_auth_rejection.1 (fun _ _ => none) (fun _ _ => ([], [])) "sec"
     ⟨7, "doc.pdf", 100, "application/pdf", 0⟩ ⟨"GET", none, "", .absent, "", 1⟩ rfl,
   c6_auth_rejection.2.1 (fun _ _ => none) (fun _ _ => ([], [])) "sec"
     ⟨7, "doc.pdf", 100, "application/pdf", 0⟩
     ⟨"GET", some (packFile "sec" "doc.pdf" 101 "application/pdf" 7), "", .absent, "", 1⟩
     (packFile "sec" "doc.pdf" 101 "application/pdf" 7) rfl (by decide),
   c6_auth_rejection.2.2.2.2.1 "sec" "doc.pdf" "application/pdf" 101 7
     ⟨7, "doc.pdf", 100, "application/pdf", 0⟩ (by decide)⟩

/-- C8: for a descriptor with the zero-size sentinel, in both drafts that
implement the sentinel path (`stream.go` and the pooled draft), a request
that passes authentication (and, in `stream.go`, the ETag check) gets status
200, no `Accept-Ranges` or `Content-Range` header, exactly one upstream
fetch at offset 0 with the path's limit (`chunkSize` in `stream.go`, 1 MiB
in the pooled draft), and a body equal to the bytes that fetch returned
(omitted for HEAD). -/
theorem c8_zero_size_sentinel :
    (∀ (fetch : Nat → Nat → Option (List Byte))
       (reader : Nat → Nat → List Byte × List (Nat × Nat))
       (secret : String) (file : FileInfo) (req : Request) (tok : CapabilityToken)
       (payload : List Byte),
       req.hash = some tok →
       checkHash tok (packFile secret file.fileName file.fileSize file.mimeType file.id) = true →
       req.ifNoneMatch ≠ eTagOf file.id file.fileSize →
       file.fileSize = 0 →
       fetch 0 StreamGo.chunkSize = some payload →
       (StreamGo.getStreamRoute fetch reader secret file req).status = 200 ∧
       (∀ h ∈ (StreamGo.getStreamRoute fetch reader secret file req).headers,
          h.1 ≠ "Accept-Ranges" ∧ h.1 ≠ "Content-Range") ∧
       (StreamGo.getStreamRoute fetch reader secret file req).fetches =
         [(0, StreamGo.chunkSize)] ∧
       (req.method ≠ "HEAD" →
         (StreamGo.getStreamRoute fetch reader secret file req).body = payload) ∧
       (req.method = "HEAD" →
         (StreamGo.getStreamRoute fetch reader secret file req).body = [])) ∧
    (∀ (fetch : Nat → Nat → Option (List Byte)) (gz : List Byte → List Byte)
       (secret : String) (file : FileInfo) (req : Request) (tok : CapabilityToken)
       (payload : List Byte),
       req.hash = some tok →
       checkHash tok (packFile secret file.fileName file.fileSize file.mimeType file.id) = true →
       file.fileSize = 0 →
       fetch 0 (1024 * 1024) = some payload →
       (Pooled.getStreamRoute fetch gz secret file req).status = 200 ∧
       (∀ h ∈ (Pooled.getStreamRoute fetch gz secret file req).headers,
          h.1 ≠ "Accept-Ranges" ∧ h.1 ≠ "Content-Range") ∧
       (Pooled.getStreamRoute fetch gz secret file req).fetches = [(0, 1024 * 1024)] ∧
       (req.method ≠ "HEAD" →
         (Pooled.getStreamRoute fetch gz secret file req).body = payload) ∧
       (req.method = "HEAD" →
         (Pooled.getStreamRoute fetch gz secret file req).body = [])) := by
  constructor
  · intro fetch reader secret file req tok payload hhash hchk hinm hsz hfe
    rw [hsz] at hchk hinm
    have hr : StreamGo.getStreamRoute fetch reader secret file req =
        { status := 200
          headers := [("ETag", eTagOf file.id 0),
                      ("Cache-Control", "public, max-age=86400"),
                      ("Content-Disposition", "inline; filename=\"" ++ file.fileName ++ "\"")] ++
            (if req.method ≠ "HEAD" then [("Content-Type", file.mimeType)] else [])
          body := if req.method ≠ "HEAD" then payload else []
          errText := none
          fetches := [(0, StreamGo.chunkSize)] } := by
      simp [StreamGo.getStreamRoute, hhash, hchk, hinm, hsz, hfe]
    rw [hr]
    refine ⟨rfl, ?_, rfl, ?_, ?_⟩
    · intro h hm
      by_cases hmeth : req.method = "HEAD"
      · simp only [hmeth, ne_eq, not_true_eq_false, if_false, List.append_nil,
          List.mem_cons, List.not_mem_nil, or_false] at hm
        rcases hm with hm | hm | hm <;> subst hm <;>
          exact ⟨of_decide_eq_true rfl, of_decide_eq_true rfl⟩
      · simp only [hmeth, ne_eq, not_false_eq_true, if_true, List.mem_append,
          List.mem_cons, List.not_mem_nil, or_false] at hm
        rcases hm with (hm | hm | hm) | hm <;> subst hm <;>
          exact ⟨of_decide_eq_true rfl, of_decide_eq_true rfl⟩
    · intro hm
      simp [hm]
    · intro hm
      simp [hm]
  · intro fetch gz secret file req tok payload hhash hchk hsz hfe
    rw [hsz] at hchk
    have hr : Pooled.getStreamRoute fetch gz secret file req =
        { status := 200
          headers := [("Content-Disposition", "inline; filename=\"" ++ file.fileName ++ "\"")] ++
            (if req.method ≠ "HEAD" then [("Content-Type", file.mimeType)] else [])
          body := if req.method ≠ "HEAD" then payload else []
          errText := none
          fetches := [(0, 1024 * 1024)] } := by
      simp [Pooled.getStreamRoute, hhash, hchk, hsz, hfe]
    rw [hr]
    refine ⟨rfl, ?_, rfl, ?_, ?_⟩
    · intro h hm
      by_cases hmeth : req.method = "HEAD"
      · simp only [hmeth, ne_eq, not_true_eq_false, if_false, List.append_nil,
          List.mem_cons, List.not_mem_nil, or_false] at hm
        subst hm
        exact ⟨of_decide_eq_true rfl, of_decide_eq_true rfl⟩
      · simp only [hmeth, ne_eq, not_false_eq_true, if_true, List.mem_append,
          List.mem_cons, List.not_mem_nil, or_false] at hm
        rcases hm with hm | hm <;> subst hm <;>
          exact ⟨of_decide_eq_true rfl, of_decide_eq_true rfl⟩
    · intro hm
      simp [hm]
    · intro hm
      simp [hm]

theorem c8_zero_size_sentinel_witness :
    ((StreamGo.getStreamRoute
        (fun o l => if o = 0 ∧ l = StreamGo.chunkSize then some [1, 2, 3] else none)
        (fun _ _ => ([], [])) "sec" ⟨5, "p.jpg", 0, "image/jpeg", 0⟩
        ⟨"GET", some (packFile "sec" "p.jpg" 0 "image/jpeg" 5), "", .absent, "", 1⟩).status =
      200 ∧
     (∀ h ∈ (StreamGo.getStreamRoute
        (fun o l => if o = 0 ∧ l = StreamGo.chunkSize then some [1, 2, 3] else none)
        (fun _ _ => ([], [])) "sec" ⟨5, "p.jpg", 0, "image/jpeg", 0⟩
        ⟨"GET", some (packFile "sec" "p.jpg" 0 "image/jpeg" 5), "", .absent, "", 1⟩).headers,
       h.1 ≠ "Accept-Ranges" ∧ h.1 ≠ "Content-Range") ∧
     (StreamGo.getStreamRoute
        (fun o l => if o = 0 ∧ l = StreamGo.chunkSize then some [1, 2, 3] else none)
        (fun _ _ => ([], [])) "sec" ⟨5, "p.jpg", 0, "image/jpeg", 0⟩
        ⟨"GET", some (packFile "sec" "p.jpg" 0 "image/jpeg" 5), "", .absent, "", 1⟩).fetches =
      [(0, StreamGo.chunkSize)] ∧
     (StreamGo.getStreamRoute
        (fun o l => if o = 0 ∧ l = StreamGo.chunkSize then some [1, 2, 3] else none)
        (fun _ _ => ([], [])) "sec" ⟨5, "p.jpg", 0, "image/jpeg", 0⟩
        ⟨"GET", some (packFile "sec" "p.jpg" 0 "image/jpeg" 5), "", .absent, "", 1⟩).body =
      [1, 2, 3]) ∧
    ((Pooled.getStreamRoute
        (fun o l => if o = 0 ∧ l = 1024 * 1024 then some [4, 5] else none)
        (fun l => l) "sec" ⟨9, "q.png", 0, "image/png", 0⟩
        ⟨"GET", some (packFile "sec" "q.png" 0 "image/png" 9), "", .absent, "", 1⟩).status =
      200 ∧
     (∀ h ∈ (Pooled.getStreamRoute
        (fun o l => if o = 0 ∧ l = 1024 * 1024 then some [4, 5] else none)
        (fun l => l) "sec" ⟨9, "q.png", 0, "image/png", 0⟩
        ⟨"GET", some (packFile "sec" "q.png" 0 "image/png" 9), "", .absent, "", 1⟩).headers,
       h.1 ≠ "Accept-Ranges" ∧ h.1 ≠ "Content-Range") ∧
     (Pooled.getStreamRoute
        (fun o l => if o = 0 ∧ l = 1024 * 1024 then some [4, 5] else none)
        (fun l => l) "sec" ⟨9, "q.png", 0, "image/png", 0⟩
        ⟨"GET", some (packFile "sec" "q.png" 0 "image/png" 9), "", .absent, "", 1⟩).fetches =
      [(0, 1024 * 1024)] ∧
     (Pooled.getStreamRoute
        (fun o l => if o = 0 ∧ l = 1024 * 1024 then some [4, 5] else none)
        (fun l => l) "sec" ⟨9, "q.png", 0, "image/png", 0⟩
        ⟨"GET", some (packFile "sec" "q.png" 0 "image/png" 9), "", .absent, "", 1⟩).body =
      [4, 5]) := by
  have h1 := c8_zero_size_sentinel.1
    (fun o l => if o = 0 ∧ l = StreamGo.chunkSize then some [1, 2, 3] else none)
    (fun _ _ => ([], [])) "sec" ⟨5, "p.jpg", 0, "image/jpeg", 0⟩
    ⟨"GET", some (packFile "sec" "p.jpg" 0 "image/jpeg" 5), "", .absent, "", 1⟩
    (packFile "sec" "p.jpg" 0 "image/jpeg" 5) [1, 2, 3]
    rfl (by decide) (by decide) rfl (by decide)
  have h2 := c8_zero_size_sentinel.2
    (fun o l => if o = 0 ∧ l = 1024 * 1024 then some [4, 5] else none)
    (fun l => l) "sec" ⟨9, "q.png", 0, "image/png", 0⟩
    ⟨"GET", some (packFile "sec" "q.png" 0 "image/png" 9), "", .absent, "", 1⟩
    (packFile "sec" "q.png" 0 "image/png" 9) [4, 5]
    rfl (by decide) rfl (by decide)
  exact ⟨⟨h1.1, h1.2.1, h1.2.2.1, h1.2.2.2.1 (by decide)⟩,
         ⟨h2.1, h2.2.1, h2.2.2.1, h2.2.2.2.1 (by decide)⟩⟩

/-- C9: in the interleaving model of the pooled draft's worker channel, in
every reachable state the buffered and held handles form a permutation of
the `K` pool handles (none lost or duplicated: release on every exit path),
held handles are pairwise distinct across requests, at most `K` requests
hold a handle, so with `K+1` requests at least one is still waiting whenever
none has finished, and from a state with an empty buffer the only possible
step is a release by a holding request — a waiting request stays blocked
until then. -/
theorem c9_pool_exclusion :
    ∀ (K : Nat) (s : Pool.PoolState), Pool.Reachable (Pool.initState K (K + 1)) s →
      ((s.free ++ Pool.held s.procs).Perm (List.range K) ∧
       (Pool.held s.procs).Nodup ∧
       (Pool.held s.procs).length ≤ K ∧
       (∀ i j wi wj, i ≠ j → s.procs.get? i = some (.holding wi) →
          s.procs.get? j = some (.holding wj) → wi ≠ wj) ∧
       ((∀ p ∈ s.procs, ∀ w, p ≠ Pool.ProcState.done w) →
          ∃ i, s.procs.get? i = some Pool.ProcState.waiting) ∧
       (s.free = [] → ∀ t, Pool.Step s t →
          ∃ i w, s.procs.get? i = some (.holding w) ∧ t.free = s.free ++ [w])) := by
  intro K s h
  have hinv := Pool.inv_reachable h
  exact ⟨hinv.1, Pool.held_nodup hinv, Pool.held_length_le hinv,
    fun i j wi wj hij hi hj => Pool.no_aliasing hinv hij hi hj,
    fun hnd => Pool.exists_waiting h hnd,
    fun hfree t hst => Pool.blocked_when_empty hfree hst⟩

theorem c9_pool_exclusion_witness :
    ((Pool.initState 2 3).free ++ Pool.held (Pool.initState 2 3).procs).Perm
      (List.range 2) ∧
    (Pool.held (Pool.initState 2 3).procs).Nodup ∧
    (Pool.held (Pool.initState 2 3).procs).length ≤ 2 ∧
    (∀ i j wi wj, i ≠ j →
       (Pool.initState 2 3).procs.get? i = some (.holding wi) →
       (Pool.initState 2 3).procs.get? j = some (.holding wj) → wi ≠ wj) ∧
    ((∀ p ∈ (Pool.initState 2 3).procs, ∀ w, p ≠ Pool.ProcState.done w) →
       ∃ i, (Pool.initState 2 3).procs.get? i = some Pool.ProcState.waiting) ∧
    ((Pool.initState 2 3).free = [] → ∀ t, Pool.Step (Pool.initState 2 3) t →
       ∃ i w, (Pool.initState 2 3).procs.get? i = some (.holding w) ∧
         t.free = (Pool.initState 2 3).free ++ [w]) :=
  c9_pool_exclusion 2 (Pool.initState 2 3) Pool.Reachable.refl

/-- C10: in the pooled draft, for a non-HEAD request passing authentication
whose (fallback-adjusted) MIME type starts with none of `video/`, `audio/`,
`image/` — the empty MIME type falls back to `application/octet-stream` and
so qualifies — the body written to the client is the gzip encoder applied
to the served window's bytes, while `Content-Length` still carries the
uncompressed window length `end-start+1`. -/
theorem c10_gzip_nonmedia :
    ∀ (content : List Byte) (gz : List Byte → List Byte) (secret : String)
      (file : FileInfo) (req : Request) (tok : CapabilityToken)
      (st s e : Nat) (cr : Option String),
      req.hash = some tok →
      checkHash tok (packFile secret file.fileName file.fileSize file.mimeType file.id) = true →
      file.fileSize ≠ 0 →
      Pooled.negotiate file.fileSize req.range = .ok st s e cr →
      req.method ≠ "HEAD" →
      goHasPrefix (mimeFallback file.mimeType) "video/" = false →
      goHasPrefix (mimeFallback file.mimeType) "audio/" = false →
      goHasPrefix (mimeFallback file.mimeType) "image/" = false →
      s + (e - s + 1) ≤ content.length →
      (Pooled.getStreamRoute (exactFetch content) gz secret file req).body =
        gz ((content.drop s).take (e - s + 1)) ∧
      ("Content-Length", toString (e - s + 1)) ∈
        (Pooled.getStreamRoute (exactFetch content) gz secret file req).headers := by
  intro content gz secret file req tok st s e cr hhash hchk hsz hneg hmeth hv ha hi hlen
  have hdbs : 0 < Pooled.defaultBufferSize := by decide
  have hdrain : (drainReader (exactFetch content)
      (newBufferedTelegramReader s (e - s + 1) Pooled.defaultBufferSize)).1 =
      (content.drop s).take (e - s + 1) := by
    have h := drainReader_exact content Pooled.defaultBufferSize s hdbs
      (s + (e - s + 1) - s) (s + (e - s + 1)) s rfl (by omega) hlen
    have harith : s + (e - s + 1) - s = e - s + 1 := by omega
    rw [harith] at h
    exact h
  have hr : Pooled.getStreamRoute (exactFetch content) gz secret file req =
      { status := st
        headers := (match cr with | some v => [("Content-Range", v)] | none => []) ++
          [("Accept-Ranges", "bytes"), ("Content-Type", mimeFallback file.mimeType),
           ("Content-Length", toString (e - s + 1)),
           ("Cache-Control", "public, max-age=31536000, immutable"),
           ("ETag", (packFile secret file.fileName file.fileSize file.mimeType file.id).render),
           ("Content-Disposition",
             (if req.dQuery = "true" then "attachment" else "inline") ++
               "; filename=\"" ++ file.fileName ++ "\"")]
        body := gz (((drainReader (exactFetch content)
            (newBufferedTelegramReader s (e - s + 1) Pooled.defaultBufferSize)).1).take
              (e - s + 1))
        errText := none
        fetches := (drainReader (exactFetch content)
            (newBufferedTelegramReader s (e - s + 1) Pooled.defaultBufferSize)).2.2 } := by
    simp [Pooled.getStreamRoute, hhash, hchk, hsz, hneg, hmeth, hv, ha, hi]
    cases cr <;> rfl
  rw [hr]
  constructor
  · show gz _ = gz _
    rw [hdrain, List.take_take, min_self]
  · simp [List.mem_append]

theorem c10_gzip_nonmedia_witness :
    (Pooled.getStreamRoute (exactFetch (List.range 10)) (fun l => 99 :: l) "sec"
        ⟨3, "t.txt", 10, "", 0⟩
        ⟨"GET", some (packFile "sec" "t.txt" 10 "" 3), "", .parsed ⟨2, 5⟩ [], "", 1⟩).body =
      (fun l => 99 :: l) (((List.range 10).drop 2).take (5 - 2 + 1)) ∧
    ("Content-Length", toString (5 - 2 + 1)) ∈
      (Pooled.getStreamRoute (exactFetch (List.range 10)) (fun l => 99 :: l) "sec"
        ⟨3, "t.txt", 10, "", 0⟩
        ⟨"GET", some (packFile "sec" "t.txt" 10 "" 3), "", .parsed ⟨2, 5⟩ [], "",
          1⟩).headers :=
  c10_gzip_nonmedia (List.range 10) (fun l => 99 :: l) "sec"
    ⟨3, "t.txt", 10, "", 0⟩
    ⟨"GET", some (packFile "sec" "t.txt" 10 "" 3), "", .parsed ⟨2, 5⟩ [], "", 1⟩
    (packFile "sec" "t.txt" 10 "" 3) 206 2 5 (some (contentRangeValue 2 5 10))
    rfl (by decide) (by decide) (by decide) (by decide)
    (by decide) (by decide) (by decide) (by decide)

end FSB
